import Mathlib

/-!
Verification of the scramble text-effect engine, router and page-transition
sequencing of the personal-site front-end (src/main.ts).

The DOM state touched by the engine is embedded shallowly:
a character cell (produced by the text splitter and `scramblePrepare`) is a
record holding its one real span and its list of decoy ("fake") spans; a span
records the style/content fields the program mutates (`textContent`,
`style.opacity`, `style.display`, `style.color`).  The timer-driven parts of
`scrambleSweep` / `scrambleReveal` are embedded as an explicit schedule of
timed events (the `setTimeout` calls, with their delays as exact rationals),
executed in stable time order — JavaScript timers with equal delays fire in
registration order, which stable insertion sort by time reproduces.
Randomness (`Math.random()` glyph picks) is an explicit index source
`Nat → Nat → Nat` (cell index, fake index).
-/

namespace PersonalSite

/-- One DOM span as mutated by the scramble engine: its text content and the
inline style fields the source touches (`opacity`, `display`, `color`). -/
structure Span where
  text : String
  opacity : String
  display : String
  color : String
deriving DecidableEq, Repr

/-- CSS class of a span inside a character cell: `scramble-real` or
`scramble-fake`. -/
inductive SpanClass where
  | real
  | fake
deriving DecidableEq, Repr

/-- One character cell after `scramblePrepare`: the single real span wrapping
the original character, and the decoy spans. -/
structure Cell where
  real : Span
  fakes : List Span
deriving DecidableEq, Repr

/-- The cell's child spans in DOM order.  `scramblePrepare` inserts each fake
with `insertAdjacentHTML("afterbegin", …)`, so the fakes precede the real
span. -/
def cellNodes (c : Cell) : List (SpanClass × Span) :=
  c.fakes.map (fun f => (SpanClass.fake, f)) ++ [(SpanClass.real, c.real)]

/-- The fixed decoy glyph string, src/main.ts line 54. -/
def SCRAMBLE_CHARS : String := "##·$%&/=€|()@+09*+]\x7d\x7b["

/-- The decoy glyphs as a list of characters. -/
def scrambleGlyphs : List Char := SCRAMBLE_CHARS.data

/-- `SCRAMBLE_CHARS[idx]` for a random index
`idx = Math.floor(Math.random() * SCRAMBLE_CHARS.length)`; every glyph of the
string is a single UTF-16 code unit, so JS string indexing is character
indexing. -/
def randomGlyph (idx : Nat) : Char :=
  scrambleGlyphs.getD idx '#'

/-- The `ScrambleOptions` object; absent fields are `none`, each consumer
applies its own defaults as in the source destructurings. -/
structure ScrambleOptions where
  fakeCount : Option Nat := none
  charStagger : Option ℚ := none
  fakeDuration : Option ℚ := none
  fakeStagger : Option ℚ := none
  revealDuration : Option ℚ := none
  startDelay : Option ℚ := none

/-- Effective `charStagger` (default 0.05, both in `scrambleReveal` and
`scrambleSweep`). -/
def csOf (o : ScrambleOptions) : ℚ := o.charStagger.getD 0.05

/-- Effective `fakeStagger` (default 0.016). -/
def fsOf (o : ScrambleOptions) : ℚ := o.fakeStagger.getD 0.016

/-- Effective `startDelay` (default 0). -/
def sdOf (o : ScrambleOptions) : ℚ := o.startDelay.getD 0

/-- Effective `fakeDuration` in `scrambleSweep` (default 0.12). -/
def fdSweepOf (o : ScrambleOptions) : ℚ := o.fakeDuration.getD 0.12

/-- Effective `fakeDuration` in `scrambleReveal` (default 0.16). -/
def fdRevealOf (o : ScrambleOptions) : ℚ := o.fakeDuration.getD 0.16

/-- A freshly inserted fake span: decoy glyph as text, inline
`display:none`, no other inline styles yet. -/
def mkFakeSpan (g : Char) : Span :=
  { text := String.singleton g, opacity := "", display := "none", color := "" }

/-- One prepared cell (loop body of `scramblePrepare`): the original content
becomes the real span's text; `fakeCount` fakes are inserted `afterbegin`,
which reverses their creation order in the DOM. -/
def mkCell (fakeCount : Nat) (rng : Nat → Nat → Nat) (i : Nat) (s : String) : Cell :=
  { real := { text := s, opacity := "", display := "", color := "" }
    fakes := (((List.range fakeCount).map (fun fi => mkFakeSpan (randomGlyph (rng i fi))))).reverse }

/-- `scramblePrepare` over the split character list, carrying the running
cell index. -/
def scramblePrepareAux (fakeCount : Nat) (rng : Nat → Nat → Nat) : Nat → List String → List Cell
  | _, [] => []
  | i, s :: rest => mkCell fakeCount rng i s :: scramblePrepareAux fakeCount rng (i + 1) rest

/-- `scramblePrepare(el, fakeCount)`: `chars` is the list of character units
produced by the splitter (whitespace units omitted), `rng` the random glyph
index source. -/
def scramblePrepare (chars : List String) (fakeCount : Nat) (rng : Nat → Nat → Nat) : List Cell :=
  scramblePrepareAux fakeCount rng 0 chars

/-- `scrambleGetChars(el)`: text content of each real span in document
order. -/
def scrambleGetChars (cells : List Cell) : List String :=
  cells.map (fun c => c.real.text)

/-- Update the element at one index of a list, leaving the rest unchanged
(embedding of a mutation of one DOM node found by index). -/
def modifyIdx (f : α → α) : Nat → List α → List α
  | _, [] => []
  | 0, x :: xs => f x :: xs
  | n + 1, x :: xs => x :: modifyIdx f n xs

theorem modifyIdx_getElem? (f : α → α) (j i : Nat) (l : List α) :
    (modifyIdx f j l)[i]? = if i = j then (l[i]?).map f else l[i]? := by
  induction l generalizing i j with
  | nil => simp [modifyIdx]
  | cons x xs ih =>
    cases j with
    | zero =>
      cases i with
      | zero => simp [modifyIdx]
      | succ i => simp [modifyIdx]
    | succ j =>
      cases i with
      | zero => simp [modifyIdx]
      | succ i => simpa [modifyIdx] using ih j i

theorem scramblePrepareAux_getElem? (k : Nat) (rng : Nat → Nat → Nat) (chars : List String)
    (j m : Nat) :
    (scramblePrepareAux k rng j chars)[m]? = (chars[m]?).map (mkCell k rng (j + m)) := by
  induction chars generalizing j m with
  | nil => simp [scramblePrepareAux]
  | cons s rest ih =>
    cases m with
    | zero => simp [scramblePrepareAux]
    | succ m =>
      have := ih (j + 1) m
      simpa [scramblePrepareAux, Nat.add_assoc, Nat.add_comm 1 m] using this

theorem scramblePrepare_getElem? (k : Nat) (rng : Nat → Nat → Nat) (chars : List String)
    (m : Nat) :
    (scramblePrepare chars k rng)[m]? = (chars[m]?).map (mkCell k rng m) := by
  simpa [scramblePrepare] using scramblePrepareAux_getElem? k rng chars 0 m

theorem scramblePrepareAux_length (k : Nat) (rng : Nat → Nat → Nat) (chars : List String) :
    ∀ j, (scramblePrepareAux k rng j chars).length = chars.length := by
  induction chars with
  | nil => intro j; rfl
  | cons s rest ih => intro j; simp [scramblePrepareAux, ih (j + 1)]

theorem scramblePrepare_length (k : Nat) (rng : Nat → Nat → Nat) (chars : List String) :
    (scramblePrepare chars k rng).length = chars.length :=
  scramblePrepareAux_length k rng chars 0

/-- The payload of one scheduled `setTimeout` callback of `scrambleSweep` or
`scrambleReveal`, acting on the cell it was created for: hide the real span
(optionally swapping its text while hidden), show or hide one fake span, or
restore the real span (applying the transform unless cancelled). -/
inductive SweepAction where
  | hideReal (newChar : Option String)
  | showFake (fi : Nat)
  | hideFake (fi : Nat)
  | restoreReal
deriving DecidableEq, Repr

/-- One scheduled timer: the cell it acts on, its delay in seconds, and its
action. -/
structure SweepEvent where
  cellIdx : Nat
  time : ℚ
  action : SweepAction
deriving DecidableEq, Repr

/-- Firing order of timers: by scheduled time. -/
def timeLE (x y : SweepEvent) : Prop := x.time ≤ y.time

instance : DecidableRel timeLE := fun x y => inferInstanceAs (Decidable (x.time ≤ y.time))

instance : IsTotal SweepEvent timeLE := ⟨fun x y => le_total x.time y.time⟩

instance : IsTrans SweepEvent timeLE := ⟨fun _ _ _ h1 h2 => le_trans h1 h2⟩

/-- Whether the session's cancel flag is set when a timer fires at `t`:
`scrambleSweep`'s `transformCancelled` is `true` exactly for callbacks firing
after the cancel function was invoked (at time `tc`). -/
def cancelledAt (ct : Option ℚ) (t : ℚ) : Bool :=
  match ct with
  | none => false
  | some tc => decide (tc < t)

/-- Whether an event acts on the real span of its cell. -/
def isRealEv (e : SweepEvent) : Bool :=
  match e.action with
  | .hideReal _ => true
  | .restoreReal => true
  | _ => false

/-- Effect of one fired action on the real span.  `hideReal` sets
`opacity:0` and, when a replacement character was provided, swaps the text
while hidden (src/main.ts lines 177-183); `restoreReal` sets `opacity:1` and
applies the transform unless cancelled (lines 200-203). -/
def realStep (tr : Span → Span) (cancelled : Bool) (r : Span) : SweepAction → Span
  | .hideReal nc =>
      let r' := { r with opacity := "0" }
      match nc with
      | some s => { r' with text := s }
      | none => r'
  | .restoreReal =>
      let r' := { r with opacity := "1" }
      if cancelled then r' else tr r'
  | _ => r

/-- Showing a fake span: `display:block; opacity:1` (lines 188-191). -/
def showFakeStyle (f : Span) : Span := { f with display := "block", opacity := "1" }

/-- Hiding a fake span: `display:none` (lines 193-195). -/
def hideFakeStyle (f : Span) : Span := { f with display := "none" }

/-- Effect of one fired action on the cell's fake spans. -/
def fakeStep (fakes : List Span) : SweepAction → List Span
  | .showFake fi => modifyIdx showFakeStyle fi fakes
  | .hideFake fi => modifyIdx hideFakeStyle fi fakes
  | _ => fakes

/-- Effect of one fired action on a whole cell. -/
def applySweepAction (tr : Span → Span) (cancelled : Bool) (a : SweepAction) (c : Cell) : Cell :=
  { real := realStep tr cancelled c.real a, fakes := fakeStep c.fakes a }

/-- Run a list of fired events all acting on the same cell. -/
def runCell (tr : Span → Span) (ct : Option ℚ) (evs : List SweepEvent) (c : Cell) : Cell :=
  evs.foldl (fun c e => applySweepAction tr (cancelledAt ct e.time) e.action c) c

/-- Fire one event on the element state (a mutation of the cell it names). -/
def applyEvent (tr : Span → Span) (ct : Option ℚ) (st : List Cell) (e : SweepEvent) : List Cell :=
  modifyIdx (applySweepAction tr (cancelledAt ct e.time) e.action) e.cellIdx st

/-- Fire a list of events in order on the element state. -/
def runEvents (tr : Span → Span) (ct : Option ℚ) (evs : List SweepEvent) (st : List Cell) :
    List Cell :=
  evs.foldl (applyEvent tr ct) st

/-- The timers `scrambleSweep` registers for the cell at index `i` with `n`
fake spans, in registration order (lines 176-203): hide the real span at
`baseDelay`, show/hide fake `fi` at `baseDelay + fi*fakeStagger` (+
`fakeDuration`), restore the real span after all fakes.  The skip for
unchanged characters is commented out in the source, so `sweepIndex` always
equals `i` and every cell gets its own slot. -/
def sweepCellEvents (o : ScrambleOptions) (newChars : Option (List String)) (i n : Nat) :
    List SweepEvent :=
  let b := sdOf o + (i : ℚ) * csOf o
  ⟨i, b, SweepAction.hideReal (newChars.bind (fun l => l[i]?))⟩
    :: (((List.range n).flatMap (fun fi =>
          [⟨i, b + (fi : ℚ) * fsOf o, SweepAction.showFake fi⟩,
           ⟨i, b + (fi : ℚ) * fsOf o + fdSweepOf o, SweepAction.hideFake fi⟩]))
        ++ [⟨i, b + (n : ℚ) * fsOf o + fdSweepOf o, SweepAction.restoreReal⟩])

/-- All timers `scrambleSweep` registers, cell by cell in document order. -/
def sweepSchedule (o : ScrambleOptions) (newChars : Option (List String)) :
    Nat → List Cell → List SweepEvent
  | _, [] => []
  | i, c :: rest =>
      sweepCellEvents o newChars i c.fakes.length ++ sweepSchedule o newChars (i + 1) rest

/-- The synchronous re-randomization of one fake span at `scrambleSweep`
call time (lines 171-174): new decoy glyph, then the transform unless the
cancel flag is set — which at call time it never is. -/
def randFake (rng : Nat → Nat → Nat) (tr : Span → Span) (cancelled : Bool) (i fi : Nat)
    (f : Span) : Span :=
  let f' := { f with text := String.singleton (randomGlyph (rng i fi)) }
  if cancelled then f' else tr f'

/-- Re-randomize all fakes of one cell, `fi` the running fake index. -/
def randomizeFakes (rng : Nat → Nat → Nat) (tr : Span → Span) (cancelled : Bool) (i : Nat) :
    Nat → List Span → List Span
  | _, [] => []
  | fi, f :: rest =>
      randFake rng tr cancelled i fi f :: randomizeFakes rng tr cancelled i (fi + 1) rest

/-- The synchronous part of `scrambleSweep`, cell by cell. -/
def sweepImmediateAux (rng : Nat → Nat → Nat) (tr : Span → Span) (cancelled : Bool) :
    Nat → List Cell → List Cell
  | _, [] => []
  | i, c :: rest =>
      { c with fakes := randomizeFakes rng tr cancelled i 0 c.fakes }
        :: sweepImmediateAux rng tr cancelled (i + 1) rest

/-- The element state right after the `scrambleSweep` call returns: every
fake re-randomized and transformed, nothing else touched yet. -/
def sweepImmediate (rng : Nat → Nat → Nat) (tr : Span → Span) (cancelled : Bool)
    (cells : List Cell) : List Cell :=
  sweepImmediateAux rng tr cancelled 0 cells

/-- A whole `scrambleSweep` session run to completion: the synchronous
re-randomization (with the cancel flag still `false`), then every scheduled
timer in firing order — stable sort by time, since JS timers with equal
delays fire in registration order.  `ct` is the time at which the returned
cancel function was invoked (`none` if never); it changes no timer, only the
flag the transform callbacks consult. -/
def scrambleSweepRun (cells : List Cell) (o : ScrambleOptions)
    (newChars : Option (List String)) (tr : Span → Span) (rng : Nat → Nat → Nat)
    (ct : Option ℚ) : List Cell :=
  runEvents tr ct (List.insertionSort timeLE (sweepSchedule o newChars 0 cells))
    (sweepImmediate rng tr false cells)

theorem runEvents_cons (tr : Span → Span) (ct : Option ℚ) (e : SweepEvent)
    (evs : List SweepEvent) (st : List Cell) :
    runEvents tr ct (e :: evs) st = runEvents tr ct evs (applyEvent tr ct st e) := rfl

theorem runCell_cons (tr : Span → Span) (ct : Option ℚ) (e : SweepEvent)
    (evs : List SweepEvent) (c : Cell) :
    runCell tr ct (e :: evs) c =
      runCell tr ct evs (applySweepAction tr (cancelledAt ct e.time) e.action c) := rfl

theorem runEvents_getElem? (tr : Span → Span) (ct : Option ℚ) (evs : List SweepEvent)
    (st : List Cell) (i : Nat) :
    (runEvents tr ct evs st)[i]? =
      (st[i]?).map (runCell tr ct (evs.filter (fun e => e.cellIdx == i))) := by
  induction evs generalizing st with
  | nil => cases h : st[i]? <;> simp [runEvents, runCell, h]
  | cons e evs ih =>
    rw [runEvents_cons, ih, applyEvent, modifyIdx_getElem?, List.filter_cons]
    by_cases hie : e.cellIdx = i
    · subst hie
      simp only [if_pos rfl, beq_self_eq_true, if_pos]
      cases h : st[e.cellIdx]? <;> simp [h, runCell_cons]
    · have h1 : ¬ (i = e.cellIdx) := fun h => hie h.symm
      have h2 : (e.cellIdx == i) = false := by simpa using hie
      simp [h1, h2]

/-- The real span's state after a list of fired events: fold of the
per-action effect on the real span. -/
def realFold (tr : Span → Span) (ct : Option ℚ) (r : Span) (evs : List SweepEvent) : Span :=
  evs.foldl (fun r e => realStep tr (cancelledAt ct e.time) r e.action) r

theorem realFold_cons (tr : Span → Span) (ct : Option ℚ) (r : Span) (e : SweepEvent)
    (evs : List SweepEvent) :
    realFold tr ct r (e :: evs) =
      realFold tr ct (realStep tr (cancelledAt ct e.time) r e.action) evs := rfl

theorem runCell_real (tr : Span → Span) (ct : Option ℚ) (evs : List SweepEvent) (c : Cell) :
    (runCell tr ct evs c).real = realFold tr ct c.real evs := by
  induction evs generalizing c with
  | nil => rfl
  | cons e evs ih =>
    rw [runCell_cons, realFold_cons]
    exact ih _

theorem realFold_filter (tr : Span → Span) (ct : Option ℚ) (evs : List SweepEvent) (r : Span) :
    realFold tr ct r evs = realFold tr ct r (evs.filter isRealEv) := by
  induction evs generalizing r with
  | nil => rfl
  | cons e evs ih =>
    rw [realFold_cons, List.filter_cons]
    by_cases h : isRealEv e
    · rw [if_pos h, realFold_cons]
      exact ih _
    · rw [if_neg h]
      have hr : realStep tr (cancelledAt ct e.time) r e.action = r := by
        cases ha : e.action with
        | hideReal nc => rw [isRealEv, ha] at h; simp at h
        | restoreReal => rw [isRealEv, ha] at h; simp at h
        | showFake fi => rfl
        | hideFake fi => rfl
      rw [hr]
      exact ih r

theorem timeLE_def (x y : SweepEvent) : timeLE x y ↔ x.time ≤ y.time := Iff.rfl

theorem orderedInsert_eq_cons (a : SweepEvent) (l : List SweepEvent)
    (h : ∀ b ∈ l, timeLE a b) : l.orderedInsert timeLE a = a :: l := by
  cases l with
  | nil => rfl
  | cons b l => exact List.orderedInsert_of_le timeLE l (h b (List.mem_cons_self b l))

theorem filter_orderedInsert (p : SweepEvent → Bool) (a : SweepEvent) (l : List SweepEvent)
    (hs : l.Sorted timeLE) :
    (l.orderedInsert timeLE a).filter p =
      if p a then (l.filter p).orderedInsert timeLE a else l.filter p := by
  induction l with
  | nil => by_cases hpa : p a <;> simp [List.orderedInsert, hpa]
  | cons b l ih =>
    obtain ⟨hb, hs'⟩ := List.sorted_cons.mp hs
    by_cases hab : timeLE a b
    · rw [List.orderedInsert_of_le timeLE l hab]
      by_cases hpa : p a
      · rw [if_pos hpa]
        have hall : ∀ y ∈ (b :: l).filter p, timeLE a y := by
          intro y hy
          have hy' := List.mem_of_mem_filter hy
          rcases List.mem_cons.mp hy' with h | h
          · exact h ▸ hab
          · exact (timeLE_def a y).mpr
              (le_trans ((timeLE_def a b).mp hab) ((timeLE_def b y).mp (hb y h)))
        rw [orderedInsert_eq_cons a _ hall, List.filter_cons, if_pos hpa]
      · rw [if_neg hpa, List.filter_cons, if_neg hpa]
    · have heq : (b :: l).orderedInsert timeLE a = b :: l.orderedInsert timeLE a := by
        simp [List.orderedInsert, hab]
      rw [heq, List.filter_cons, List.filter_cons, ih hs']
      by_cases hpa : p a
      · rw [if_pos hpa, if_pos hpa]
        by_cases hpb : p b
        · rw [if_pos hpb, if_pos hpb]
          have heq2 : (b :: l.filter p).orderedInsert timeLE a =
              b :: (l.filter p).orderedInsert timeLE a := by
            simp [List.orderedInsert, hab]
          rw [heq2]
        · rw [if_neg hpb, if_neg hpb]
      · rw [if_neg hpa, if_neg hpa]

theorem filter_insertionSort (p : SweepEvent → Bool) (l : List SweepEvent) :
    (List.insertionSort timeLE l).filter p = List.insertionSort timeLE (l.filter p) := by
  induction l with
  | nil => rfl
  | cons a l ih =>
    rw [List.insertionSort,
      filter_orderedInsert p a _ (List.sorted_insertionSort timeLE l), ih, List.filter_cons]
    by_cases hpa : p a <;> simp [hpa, List.insertionSort]

theorem sweepCellEvents_cellIdx (o : ScrambleOptions) (nc : Option (List String)) (i n : Nat) :
    ∀ e ∈ sweepCellEvents o nc i n, e.cellIdx = i := by
  intro e he
  simp [sweepCellEvents] at he
  rcases he with rfl | ⟨fi, hfi, rfl | rfl⟩ | rfl <;> rfl

theorem sweepSchedule_cellIdx_ge (o : ScrambleOptions) (nc : Option (List String)) :
    ∀ (cells : List Cell) (j : Nat), ∀ e ∈ sweepSchedule o nc j cells, j ≤ e.cellIdx := by
  intro cells
  induction cells with
  | nil => intro j e he; simp [sweepSchedule] at he
  | cons c rest ih =>
    intro j e he
    rw [sweepSchedule] at he
    rcases List.mem_append.mp he with h | h
    · exact le_of_eq (sweepCellEvents_cellIdx o nc j _ e h).symm
    · exact le_trans (Nat.le_succ j) (ih (j + 1) e h)

theorem filter_sweepSchedule (o : ScrambleOptions) (nc : Option (List String)) :
    ∀ (cells : List Cell) (j k : Nat) (c : Cell), cells[k]? = some c →
    (sweepSchedule o nc j cells).filter (fun e => e.cellIdx == j + k) =
      sweepCellEvents o nc (j + k) c.fakes.length := by
  intro cells
  induction cells with
  | nil => intro j k c hc; simp at hc
  | cons c0 rest ih =>
    intro j k c hc
    rw [sweepSchedule, List.filter_append]
    cases k with
    | zero =>
      have hc0 : c0 = c := by simpa using hc
      subst hc0
      have h1 : (sweepCellEvents o nc j c0.fakes.length).filter
          (fun e => e.cellIdx == j + 0) = sweepCellEvents o nc j c0.fakes.length := by
        apply List.filter_eq_self.mpr
        intro e he
        simp [sweepCellEvents_cellIdx o nc j _ e he]
      have h2 : (sweepSchedule o nc (j + 1) rest).filter (fun e => e.cellIdx == j + 0) = [] := by
        apply List.filter_eq_nil_iff.mpr
        intro e he
        have hge := sweepSchedule_cellIdx_ge o nc rest (j + 1) e he
        simp only [beq_iff_eq]
        omega
      rw [h1, h2, List.append_nil]
      rfl
    | succ k =>
      have hc' : rest[k]? = some c := by simpa using hc
      have h1 : (sweepCellEvents o nc j c0.fakes.length).filter
          (fun e => e.cellIdx == j + (k + 1)) = [] := by
        apply List.filter_eq_nil_iff.mpr
        intro e he
        have heq := sweepCellEvents_cellIdx o nc j _ e he
        simp only [beq_iff_eq, heq]
        omega
      have hjk : j + 1 + k = j + (k + 1) := by omega
      have h2 := ih (j + 1) k c hc'
      rw [hjk] at h2
      rw [h1, List.nil_append, h2]

theorem filter_sweepSchedule_zero (o : ScrambleOptions) (nc : Option (List String))
    (cells : List Cell) (i : Nat) (c : Cell) (hc : cells[i]? = some c) :
    (sweepSchedule o nc 0 cells).filter (fun e => e.cellIdx == i) =
      sweepCellEvents o nc i c.fakes.length := by
  have := filter_sweepSchedule o nc cells 0 i c hc
  simpa using this

theorem filter_real_fakeEvents (o : ScrambleOptions) (i : Nat) (b : ℚ) (L : List Nat) :
    (L.flatMap (fun fi =>
      [⟨i, b + (fi : ℚ) * fsOf o, SweepAction.showFake fi⟩,
       ⟨i, b + (fi : ℚ) * fsOf o + fdSweepOf o, SweepAction.hideFake fi⟩])).filter isRealEv
      = [] := by
  induction L with
  | nil => rfl
  | cons fi L ih =>
    simp only [List.flatMap_cons, List.filter_append, ih, List.append_nil]
    rfl

theorem sweepCellEvents_filter_real (o : ScrambleOptions) (nc : Option (List String))
    (i n : Nat) :
    (sweepCellEvents o nc i n).filter isRealEv =
      [⟨i, sdOf o + (i : ℚ) * csOf o, SweepAction.hideReal (nc.bind (fun l => l[i]?))⟩,
       ⟨i, sdOf o + (i : ℚ) * csOf o + (n : ℚ) * fsOf o + fdSweepOf o,
         SweepAction.restoreReal⟩] := by
  rw [sweepCellEvents]
  rw [List.filter_cons]
  rw [List.filter_append, filter_real_fakeEvents o i _ (List.range n)]
  rfl

theorem sweepImmediateAux_getElem? (rng : Nat → Nat → Nat) (tr : Span → Span)
    (cancelled : Bool) (cells : List Cell) :
    ∀ (j m : Nat), (sweepImmediateAux rng tr cancelled j cells)[m]? =
      (cells[m]?).map
        (fun c => { c with fakes := randomizeFakes rng tr cancelled (j + m) 0 c.fakes }) := by
  induction cells with
  | nil => intro j m; simp [sweepImmediateAux]
  | cons c rest ih =>
    intro j m
    cases m with
    | zero => simp [sweepImmediateAux]
    | succ m =>
      have h := ih (j + 1) m
      have hjk : j + 1 + m = j + (m + 1) := by omega
      rw [hjk] at h
      simpa [sweepImmediateAux] using h

theorem sweepImmediate_getElem? (rng : Nat → Nat → Nat) (tr : Span → Span) (cancelled : Bool)
    (cells : List Cell) (m : Nat) :
    (sweepImmediate rng tr cancelled cells)[m]? =
      (cells[m]?).map
        (fun c => { c with fakes := randomizeFakes rng tr cancelled m 0 c.fakes }) := by
  have := sweepImmediateAux_getElem? rng tr cancelled cells 0 m
  simpa [sweepImmediate] using this

theorem hideEvent_mem_sweepSchedule (o : ScrambleOptions) (nc : Option (List String))
    (cells : List Cell) (i : Nat) (c : Cell) (hc : cells[i]? = some c) :
    (⟨i, sdOf o + (i : ℚ) * csOf o,
        SweepAction.hideReal (nc.bind (fun l => l[i]?))⟩ : SweepEvent)
      ∈ sweepSchedule o nc 0 cells := by
  have hf := filter_sweepSchedule_zero o nc cells i c hc
  have hmem : (⟨i, sdOf o + (i : ℚ) * csOf o,
      SweepAction.hideReal (nc.bind (fun l => l[i]?))⟩ : SweepEvent)
      ∈ sweepCellEvents o nc i c.fakes.length := by
    rw [sweepCellEvents]
    exact List.mem_cons_self _ _
  rw [← hf] at hmem
  exact List.mem_of_mem_filter hmem

theorem restoreEvent_mem_sweepSchedule (o : ScrambleOptions) (nc : Option (List String))
    (cells : List Cell) (i : Nat) (c : Cell) (hc : cells[i]? = some c) :
    (⟨i, sdOf o + (i : ℚ) * csOf o + (c.fakes.length : ℚ) * fsOf o + fdSweepOf o,
        SweepAction.restoreReal⟩ : SweepEvent)
      ∈ sweepSchedule o nc 0 cells := by
  have hf := filter_sweepSchedule_zero o nc cells i c hc
  have hmem : (⟨i, sdOf o + (i : ℚ) * csOf o + (c.fakes.length : ℚ) * fsOf o + fdSweepOf o,
      SweepAction.restoreReal⟩ : SweepEvent)
      ∈ sweepCellEvents o nc i c.fakes.length := by
    rw [sweepCellEvents]
    exact List.mem_cons_of_mem _ (List.mem_append_right _ (List.mem_singleton.mpr rfl))
  rw [← hf] at hmem
  exact List.mem_of_mem_filter hmem

/-- Final state of the real span of cell `i` after a full sweep session: in
firing order the hide timer acts on it first and the restore timer last
(their offsets from `baseDelay` are nonnegative, and on equal times stable
order keeps registration order), and no fake timer touches it. -/
theorem sweepRun_real (cells : List Cell) (o : ScrambleOptions) (nc : Option (List String))
    (tr : Span → Span) (rng : Nat → Nat → Nat) (ct : Option ℚ) (i : Nat) (c : Cell)
    (hc : cells[i]? = some c)
    (hord : (0 : ℚ) ≤ (c.fakes.length : ℚ) * fsOf o + fdSweepOf o) :
    ((scrambleSweepRun cells o nc tr rng ct)[i]?).map (fun x => x.real) =
      some (realStep tr
        (cancelledAt ct
          (sdOf o + (i : ℚ) * csOf o + (c.fakes.length : ℚ) * fsOf o + fdSweepOf o))
        (realStep tr (cancelledAt ct (sdOf o + (i : ℚ) * csOf o)) c.real
          (SweepAction.hideReal (nc.bind (fun l => l[i]?))))
        SweepAction.restoreReal) := by
  have htle : timeLE
      ⟨i, sdOf o + (i : ℚ) * csOf o, SweepAction.hideReal (nc.bind (fun l => l[i]?))⟩
      ⟨i, sdOf o + (i : ℚ) * csOf o + (c.fakes.length : ℚ) * fsOf o + fdSweepOf o,
        SweepAction.restoreReal⟩ := by
    rw [timeLE_def]
    dsimp only
    rw [add_assoc (sdOf o + (i : ℚ) * csOf o)]
    exact le_add_of_nonneg_right hord
  have hsort : List.insertionSort timeLE
      [⟨i, sdOf o + (i : ℚ) * csOf o, SweepAction.hideReal (nc.bind (fun l => l[i]?))⟩,
       ⟨i, sdOf o + (i : ℚ) * csOf o + (c.fakes.length : ℚ) * fsOf o + fdSweepOf o,
         SweepAction.restoreReal⟩] =
      [⟨i, sdOf o + (i : ℚ) * csOf o, SweepAction.hideReal (nc.bind (fun l => l[i]?))⟩,
       ⟨i, sdOf o + (i : ℚ) * csOf o + (c.fakes.length : ℚ) * fsOf o + fdSweepOf o,
         SweepAction.restoreReal⟩] := by
    rw [List.insertionSort, show List.insertionSort timeLE
      [(⟨i, sdOf o + (i : ℚ) * csOf o + (c.fakes.length : ℚ) * fsOf o + fdSweepOf o,
        SweepAction.restoreReal⟩ : SweepEvent)] =
      [⟨i, sdOf o + (i : ℚ) * csOf o + (c.fakes.length : ℚ) * fsOf o + fdSweepOf o,
        SweepAction.restoreReal⟩] from rfl]
    exact List.orderedInsert_of_le timeLE _ htle
  rw [scrambleSweepRun, runEvents_getElem?, sweepImmediate_getElem?, hc]
  simp only [Option.map_some']
  rw [runCell_real]
  rw [filter_insertionSort, filter_sweepSchedule_zero o nc cells i c hc, realFold_filter,
    filter_insertionSort, sweepCellEvents_filter_real, hsort]
  rfl

/-- C1: on a prepared element, `scrambleSweep(el, opts, newChars)` (default
no-op transform) with `newChars` of length equal to the real-span count
schedules a hidden-phase timer for every cell `i` — even when the new
character equals the old one, the skip being commented out — whose firing
sets the real span to `opacity:0` and swaps its text to `newChars[i]` while
hidden; and once the session completes, cell `i`'s real span shows
`newChars[i]` at `opacity:1`. -/
theorem scrambleSweep_updates_all_cells (chars : List String) (k : Nat)
    (rngP rngS : Nat → Nat → Nat) (o : ScrambleOptions) (l : List String)
    (hlen : l.length = chars.length) (hfs : 0 ≤ fsOf o) (hfd : 0 ≤ fdSweepOf o)
    (i : Nat) (hi : i < chars.length) :
    ((⟨i, sdOf o + (i : ℚ) * csOf o, SweepAction.hideReal l[i]?⟩ : SweepEvent)
        ∈ sweepSchedule o (some l) 0 (scramblePrepare chars k rngP))
    ∧ (∀ r : Span, realStep id false r (SweepAction.hideReal l[i]?)
        = { r with opacity := "0", text := l.getD i "" })
    ∧ ((scrambleSweepRun (scramblePrepare chars k rngP) o (some l) id rngS none)[i]?).map
        (fun x => (x.real.text, x.real.opacity)) = some (l.getD i "", "1") := by
  have hil : i < l.length := by omega
  obtain ⟨s, hs⟩ : ∃ s, chars[i]? = some s := ⟨chars[i], List.getElem?_eq_getElem hi⟩
  have hc : (scramblePrepare chars k rngP)[i]? = some (mkCell k rngP i s) := by
    rw [scramblePrepare_getElem?, hs]
    rfl
  have hli : l[i]? = some (l.getD i "") := by
    rw [List.getElem?_eq_getElem hil, List.getD_eq_getElem l "" hil]
  have hord : (0 : ℚ) ≤ ((mkCell k rngP i s).fakes.length : ℚ) * fsOf o + fdSweepOf o :=
    add_nonneg (mul_nonneg (Nat.cast_nonneg _) hfs) hfd
  refine ⟨hideEvent_mem_sweepSchedule o (some l) _ i _ hc, ?_, ?_⟩
  · intro r
    rw [show (l[i]? : Option String) = some (l.getD i "") from hli]
    rfl
  · have hmain := sweepRun_real (scramblePrepare chars k rngP) o (some l) id rngS none i _ hc hord
    have hb : ((some l).bind fun v => v[i]?) = some (l.getD i "") := hli
    rw [hb] at hmain
    obtain ⟨cl, hcl, hreal⟩ := Option.map_eq_some'.mp hmain
    have hreal' : cl.real = realStep id
        (cancelledAt none
          (sdOf o + (i : ℚ) * csOf o + ((mkCell k rngP i s).fakes.length : ℚ) * fsOf o +
            fdSweepOf o))
        (realStep id (cancelledAt none (sdOf o + (i : ℚ) * csOf o)) (mkCell k rngP i s).real
          (SweepAction.hideReal (some (l.getD i ""))))
        SweepAction.restoreReal := hreal
    rw [hcl, Option.map_some']
    rw [hreal']
    rfl

/-- C1 witness: two cells, the second new character equal to the old one
("B") — its cell is still swept and ends visible with text "B". -/
theorem scrambleSweep_updates_all_cells_witness :
    ((scrambleSweepRun (scramblePrepare ["A", "B"] 1 (fun _ _ => 0)) {} (some ["X", "B"]) id
        (fun _ _ => 0) none)[1]?).map (fun x => (x.real.text, x.real.opacity))
      = some ("B", "1") :=
  (scrambleSweep_updates_all_cells ["A", "B"] 1 (fun _ _ => 0) (fun _ _ => 0) {} ["X", "B"]
    (by decide) (by norm_num [fsOf]) (by norm_num [fdSweepOf]) 1 (by decide)).2.2

/-- C2: invoking the sweep's cancel function at time `tc` before cell `i`'s
restore timer fires leaves that cell's real span exactly restored — text as
set during the hidden phase, `opacity:1` — with no transform applied (the
right-hand side does not mention `tr`); and the restore timer is still in
the schedule, which cancellation never alters. -/
theorem scrambleSweep_cancel_still_restores (cells : List Cell) (o : ScrambleOptions)
    (nc : Option (List String)) (tr : Span → Span) (rng : Nat → Nat → Nat) (tc : ℚ)
    (i : Nat) (c : Cell) (hc : cells[i]? = some c)
    (hfs : 0 ≤ fsOf o) (hfd : 0 ≤ fdSweepOf o)
    (htc : tc < sdOf o + (i : ℚ) * csOf o + (c.fakes.length : ℚ) * fsOf o + fdSweepOf o) :
    ((⟨i, sdOf o + (i : ℚ) * csOf o + (c.fakes.length : ℚ) * fsOf o + fdSweepOf o,
        SweepAction.restoreReal⟩ : SweepEvent) ∈ sweepSchedule o nc 0 cells)
    ∧ ((scrambleSweepRun cells o nc tr rng (some tc))[i]?).map (fun x => x.real) =
        some { c.real with
            opacity := "1"
            text := (nc.bind fun v => v[i]?).getD c.real.text } := by
  have hord : (0 : ℚ) ≤ (c.fakes.length : ℚ) * fsOf o + fdSweepOf o :=
    add_nonneg (mul_nonneg (Nat.cast_nonneg _) hfs) hfd
  refine ⟨restoreEvent_mem_sweepSchedule o nc cells i c hc, ?_⟩
  have hmain := sweepRun_real cells o nc tr rng (some tc) i c hc hord
  have hcanc : cancelledAt (some tc)
      (sdOf o + (i : ℚ) * csOf o + (c.fakes.length : ℚ) * fsOf o + fdSweepOf o) = true := by
    rw [cancelledAt]
    exact decide_eq_true htc
  rw [hcanc] at hmain
  cases hp : nc.bind fun v => v[i]? with
  | none =>
    rw [hp] at hmain
    rw [hmain]
    rfl
  | some s =>
    rw [hp] at hmain
    rw [hmain]
    rfl

/-- C2 witness: one cell "A", cancel at time 0, restore scheduled at 0.136;
the real span still ends at `opacity:1` with its text, untransformed. -/
theorem scrambleSweep_cancel_still_restores_witness :
    ((scrambleSweepRun (scramblePrepare ["A"] 1 (fun _ _ => 0)) {} none
        (fun s => { s with color := "black" }) (fun _ _ => 0) (some 0))[0]?).map
        (fun x => x.real)
      = some { text := "A", opacity := "1", display := "", color := "" } :=
  (scrambleSweep_cancel_still_restores (scramblePrepare ["A"] 1 (fun _ _ => 0)) {} none
    (fun s => { s with color := "black" }) (fun _ _ => 0) 0 0
    (mkCell 1 (fun _ _ => 0) 0 "A") (by decide) (by norm_num [fsOf]) (by norm_num [fdSweepOf])
    (by norm_num [sdOf, csOf, fsOf, fdSweepOf, mkCell])).2

/-- C10: when `newChars` is omitted, or the cell's index is beyond the end
of the supplied array (`newChars[i]` is `undefined`, and `undefined != null`
is false), the sweep schedules the cell's hidden-phase timer with no
replacement text, and for any transform that does not touch text or opacity
the cell's real span ends the session with its text unchanged and
`opacity:1`. -/
theorem scrambleSweep_no_newChars_preserves_text (cells : List Cell) (o : ScrambleOptions)
    (nc : Option (List String)) (tr : Span → Span) (rng : Nat → Nat → Nat) (ct : Option ℚ)
    (i : Nat) (c : Cell) (hc : cells[i]? = some c)
    (hnc : nc = none ∨ ∃ v, nc = some v ∧ v.length ≤ i)
    (htext : ∀ s, (tr s).text = s.text) (hop : ∀ s, (tr s).opacity = s.opacity)
    (hfs : 0 ≤ fsOf o) (hfd : 0 ≤ fdSweepOf o) :
    ((⟨i, sdOf o + (i : ℚ) * csOf o, SweepAction.hideReal none⟩ : SweepEvent)
        ∈ sweepSchedule o nc 0 cells)
    ∧ ((scrambleSweepRun cells o nc tr rng ct)[i]?).map
        (fun x => (x.real.text, x.real.opacity)) = some (c.real.text, "1") := by
  have hord : (0 : ℚ) ≤ (c.fakes.length : ℚ) * fsOf o + fdSweepOf o :=
    add_nonneg (mul_nonneg (Nat.cast_nonneg _) hfs) hfd
  have hp : (nc.bind fun v => v[i]?) = none := by
    rcases hnc with rfl | ⟨v, rfl, hv⟩
    · rfl
    · simp [List.getElem?_eq_none hv]
  constructor
  · have hmem := hideEvent_mem_sweepSchedule o nc cells i c hc
    rw [hp] at hmem
    exact hmem
  · have hmain := sweepRun_real cells o nc tr rng ct i c hc hord
    rw [hp] at hmain
    obtain ⟨cl, hcl, hreal⟩ := Option.map_eq_some'.mp hmain
    have hreal' : cl.real = realStep tr
        (cancelledAt ct
          (sdOf o + (i : ℚ) * csOf o + (c.fakes.length : ℚ) * fsOf o + fdSweepOf o))
        (realStep tr (cancelledAt ct (sdOf o + (i : ℚ) * csOf o)) c.real
          (SweepAction.hideReal none))
        SweepAction.restoreReal := hreal
    rw [hcl, Option.map_some']
    cases hcb : cancelledAt ct
        (sdOf o + (i : ℚ) * csOf o + (c.fakes.length : ℚ) * fsOf o + fdSweepOf o) with
    | true =>
      rw [hcb] at hreal'
      rw [hreal']
      rfl
    | false =>
      rw [hcb] at hreal'
      rw [hreal']
      rw [show realStep tr false
          (realStep tr (cancelledAt ct (sdOf o + (i : ℚ) * csOf o)) c.real
            (SweepAction.hideReal none)) SweepAction.restoreReal
          = tr { c.real with opacity := "1" } from rfl]
      rw [htext, hop]

/-- C10 witness: one cell "A" swept with `newChars` omitted: text stays "A",
opacity ends at "1". -/
theorem scrambleSweep_no_newChars_preserves_text_witness :
    ((scrambleSweepRun (scramblePrepare ["A"] 1 (fun _ _ => 0)) {} none id
        (fun _ _ => 0) none)[0]?).map (fun x => (x.real.text, x.real.opacity))
      = some ("A", "1") :=
  (scrambleSweep_no_newChars_preserves_text (scramblePrepare ["A"] 1 (fun _ _ => 0)) {} none
    id (fun _ _ => 0) none 0 (mkCell 1 (fun _ _ => 0) 0 "A") (by decide) (Or.inl rfl)
    (fun _ => rfl) (fun _ => rfl) (by norm_num [fsOf]) (by norm_num [fdSweepOf])).2

theorem cellNodes_filter_real (c : Cell) :
    (cellNodes c).filter (fun n => n.1 == SpanClass.real) = [(SpanClass.real, c.real)] := by
  rw [cellNodes, List.filter_append]
  have h1 : (c.fakes.map (fun f => (SpanClass.fake, f))).filter
      (fun n => n.1 == SpanClass.real) = [] := by
    induction c.fakes with
    | nil => rfl
    | cons f fs ih => simp [ih]
  rw [h1]
  rfl

theorem cellNodes_filter_fake_length (c : Cell) :
    ((cellNodes c).filter (fun n => n.1 == SpanClass.fake)).length = c.fakes.length := by
  rw [cellNodes, List.filter_append]
  have h1 : (c.fakes.map (fun f => (SpanClass.fake, f))).filter
      (fun n => n.1 == SpanClass.fake) = c.fakes.map (fun f => (SpanClass.fake, f)) := by
    apply List.filter_eq_self.mpr
    intro a ha
    obtain ⟨f, _, rfl⟩ := List.mem_map.mp ha
    rfl
  rw [h1]
  simp

theorem mem_scramblePrepareAux (k : Nat) (rng : Nat → Nat → Nat) (chars : List String) :
    ∀ j c, c ∈ scramblePrepareAux k rng j chars → ∃ i s, c = mkCell k rng i s := by
  induction chars with
  | nil => intro j c hc; simp [scramblePrepareAux] at hc
  | cons s rest ih =>
    intro j c hc
    rw [scramblePrepareAux] at hc
    rcases List.mem_cons.mp hc with rfl | h
    · exact ⟨j, s, rfl⟩
    · exact ih (j + 1) c h

theorem mem_sweepImmediateAux (rng : Nat → Nat → Nat) (tr : Span → Span) (b : Bool)
    (cells : List Cell) :
    ∀ j c, c ∈ sweepImmediateAux rng tr b j cells →
      ∃ (i : Nat) (c0 : Cell), c = { c0 with fakes := randomizeFakes rng tr b i 0 c0.fakes } := by
  induction cells with
  | nil => intro j c hc; simp [sweepImmediateAux] at hc
  | cons c0 rest ih =>
    intro j c hc
    rw [sweepImmediateAux] at hc
    rcases List.mem_cons.mp hc with rfl | h
    · exact ⟨j, c0, rfl⟩
    · exact ih (j + 1) c h

theorem mem_randomizeFakes (rng : Nat → Nat → Nat) (tr : Span → Span) (b : Bool) (i : Nat) :
    ∀ (fs : List Span) (fi : Nat) (f : Span),
      f ∈ randomizeFakes rng tr b i fi fs → ∃ fi0 f0, f = randFake rng tr b i fi0 f0 := by
  intro fs
  induction fs with
  | nil => intro fi f hf; simp [randomizeFakes] at hf
  | cons f0 rest ih =>
    intro fi f hf
    rw [randomizeFakes] at hf
    rcases List.mem_cons.mp hf with rfl | h
    · exact ⟨fi, f0, rfl⟩
    · exact ih (fi + 1) f h

theorem randomGlyph_mem (idx : Nat) (h : idx < scrambleGlyphs.length) :
    randomGlyph idx ∈ scrambleGlyphs := by
  rw [randomGlyph, List.getD_eq_getElem scrambleGlyphs '#' h]
  exact List.getElem_mem h

/-- C4: after `scramblePrepare(el, k)` the element has one cell per split
character, and each cell's children are exactly one `scramble-real` span
carrying the cell's original content and exactly `k` `scramble-fake`
spans. -/
theorem scramblePrepare_cell_structure (chars : List String) (k : Nat)
    (rng : Nat → Nat → Nat) (i : Nat) (s : String) (hs : chars[i]? = some s) :
    (scramblePrepare chars k rng).length = chars.length
    ∧ ∃ c, (scramblePrepare chars k rng)[i]? = some c
        ∧ (cellNodes c).filter (fun n => n.1 == SpanClass.real) = [(SpanClass.real, c.real)]
        ∧ c.real.text = s
        ∧ ((cellNodes c).filter (fun n => n.1 == SpanClass.fake)).length = k := by
  refine ⟨scramblePrepare_length k rng chars, mkCell k rng i s, ?_,
    cellNodes_filter_real _, rfl, ?_⟩
  · rw [scramblePrepare_getElem?, hs]
    rfl
  · rw [cellNodes_filter_fake_length]
    simp [mkCell]

/-- C4 witness: two characters, two fakes per cell; the second cell keeps
"I" in its single real span and has two fakes. -/
theorem scramblePrepare_cell_structure_witness :
    (scramblePrepare ["H", "I"] 2 (fun _ _ => 0)).length = 2
    ∧ ∃ c, (scramblePrepare ["H", "I"] 2 (fun _ _ => 0))[1]? = some c
        ∧ (cellNodes c).filter (fun n => n.1 == SpanClass.real) = [(SpanClass.real, c.real)]
        ∧ c.real.text = "I"
        ∧ ((cellNodes c).filter (fun n => n.1 == SpanClass.fake)).length = 2 :=
  scramblePrepare_cell_structure ["H", "I"] 2 (fun _ _ => 0) 1 "I" (by decide)

/-- C9: every decoy glyph the engine generates — the prepare-time fakes and
every sweep-time re-randomization — is drawn from `SCRAMBLE_CHARS`, for any
random index below the string's length (as `Math.floor(Math.random()*len)`
always is). -/
theorem decoy_glyphs_in_set (chars : List String) (k : Nat) (rngP rngS : Nat → Nat → Nat)
    (cells : List Cell)
    (hP : ∀ i fi, rngP i fi < scrambleGlyphs.length)
    (hS : ∀ i fi, rngS i fi < scrambleGlyphs.length) :
    (∀ c ∈ scramblePrepare chars k rngP, ∀ f ∈ c.fakes,
        ∃ g ∈ scrambleGlyphs, f.text = String.singleton g)
    ∧ (∀ c ∈ sweepImmediate rngS id false cells, ∀ f ∈ c.fakes,
        ∃ g ∈ scrambleGlyphs, f.text = String.singleton g) := by
  constructor
  · intro c hcmem f hf
    obtain ⟨i, s, rfl⟩ := mem_scramblePrepareAux k rngP chars 0 c hcmem
    rw [mkCell] at hf
    rw [List.mem_reverse] at hf
    obtain ⟨fi, _, rfl⟩ := List.mem_map.mp hf
    exact ⟨randomGlyph (rngP i fi), randomGlyph_mem _ (hP i fi), rfl⟩
  · intro c hcmem f hf
    obtain ⟨i, c0, rfl⟩ := mem_sweepImmediateAux rngS id false cells 0 c hcmem
    obtain ⟨fi0, f0, rfl⟩ := mem_randomizeFakes rngS id false i c0.fakes 0 f hf
    exact ⟨randomGlyph (rngS i fi0), randomGlyph_mem _ (hS i fi0), rfl⟩

/-- C9 witness: with random index 3 everywhere, all generated decoys of a
prepare and of a sweep re-randomization lie in the glyph set. -/
theorem decoy_glyphs_in_set_witness :
    (∀ c ∈ scramblePrepare ["A"] 1 (fun _ _ => 3), ∀ f ∈ c.fakes,
        ∃ g ∈ scrambleGlyphs, f.text = String.singleton g)
    ∧ (∀ c ∈ sweepImmediate (fun _ _ => 3) id false (scramblePrepare ["A"] 1 (fun _ _ => 3)),
        ∀ f ∈ c.fakes, ∃ g ∈ scrambleGlyphs, f.text = String.singleton g) :=
  decoy_glyphs_in_set ["A"] 1 (fun _ _ => 3) (fun _ _ => 3)
    (scramblePrepare ["A"] 1 (fun _ _ => 3))
    (fun _ _ => (by decide : 3 < scrambleGlyphs.length))
    (fun _ _ => (by decide : 3 < scrambleGlyphs.length))

theorem map_modifyIdx (g : α → β) (f : α → α) (h : ∀ x, g (f x) = g x) :
    ∀ (n : Nat) (l : List α), (modifyIdx f n l).map g = l.map g := by
  intro n l
  induction l generalizing n with
  | nil => cases n <;> rfl
  | cons x xs ih =>
    cases n with
    | zero => simp [modifyIdx, h]
    | succ n => simp [modifyIdx, ih]

theorem fakeStep_map_color (fs : List Span) (a : SweepAction) :
    (fakeStep fs a).map (fun f => f.color) = fs.map (fun f => f.color) := by
  cases a with
  | showFake fi =>
    exact map_modifyIdx ((fun f => f.color) : Span → String) showFakeStyle (fun x => rfl) fi fs
  | hideFake fi =>
    exact map_modifyIdx ((fun f => f.color) : Span → String) hideFakeStyle (fun x => rfl) fi fs
  | hideReal nc => rfl
  | restoreReal => rfl

theorem runCell_fakes_color (tr : Span → Span) (ct : Option ℚ) (evs : List SweepEvent)
    (c : Cell) :
    (runCell tr ct evs c).fakes.map (fun f => f.color) = c.fakes.map (fun f => f.color) := by
  induction evs generalizing c with
  | nil => rfl
  | cons e evs ih =>
    rw [runCell_cons, ih]
    exact fakeStep_map_color c.fakes e.action

/-- The scheduled timers only toggle fake spans' `display`/`opacity`; a
fake's `color` (set by the call-time transform) survives the whole session,
whether or not it is cancelled. -/
theorem sweepRun_fakes_color (cells : List Cell) (o : ScrambleOptions)
    (nc : Option (List String)) (tr : Span → Span) (rng : Nat → Nat → Nat) (ct : Option ℚ)
    (i : Nat) :
    ((scrambleSweepRun cells o nc tr rng ct)[i]?).map
        (fun c => c.fakes.map (fun f => f.color))
      = ((sweepImmediate rng tr false cells)[i]?).map
          (fun c => c.fakes.map (fun f => f.color)) := by
  rw [scrambleSweepRun, runEvents_getElem?]
  cases h : (sweepImmediate rng tr false cells)[i]? with
  | none => rfl
  | some cI => simp [h, runCell_fakes_color]

/-- C3 counterexample: one prepared cell "A" with one fake; the sweep's
transform sets `color := "black"`; the cancel function is invoked at time 0,
strictly before the cell's restore timer (0.136 s).  The claim says the fake
span's transform only happens at restore time and is suppressed by such a
cancellation — yet the fake is already transformed in the state the
`scrambleSweep` call returns (before any timer fired), and still shows
`color = "black"` when the cancelled session completes. -/
theorem scrambleSweep_fake_transform_cex :
    ((sweepImmediate (fun _ _ => 0) (fun s => { s with color := "black" }) false
        (scramblePrepare ["A"] 1 (fun _ _ => 0)))[0]?).map
        (fun c => c.fakes.map (fun f => f.color)) = some ["black"]
    ∧ (0 : ℚ) < sdOf {} + (0 : ℚ) * csOf {}
        + (((mkCell 1 (fun _ _ => 0) 0 "A").fakes.length : ℚ)) * fsOf {} + fdSweepOf {}
    ∧ ((scrambleSweepRun (scramblePrepare ["A"] 1 (fun _ _ => 0)) {} none
          (fun s => { s with color := "black" }) (fun _ _ => 0) (some 0))[0]?).map
        (fun c => c.fakes.map (fun f => f.color)) = some ["black"] := by
  refine ⟨by decide, by norm_num [sdOf, csOf, fsOf, fdSweepOf, mkCell], ?_⟩
  rw [sweepRun_fakes_color]
  decide

/-- C3 amended: the transform is applied to each freshly randomized fake
span synchronously when `scrambleSweep` is called — before any scheduled
timer fires, hence before the returned cancel function can be invoked — so
cancellation cannot suppress the fake-span transforms; only the real span's
restore-time transform is cancellable. -/
theorem scrambleSweep_fake_transform_immediate (cells : List Cell) (rng : Nat → Nat → Nat)
    (tr : Span → Span) (i : Nat) (c : Cell) (hc : cells[i]? = some c)
    (fi : Nat) (f : Span) (hf : c.fakes[fi]? = some f) :
    ∃ cI, (sweepImmediate rng tr false cells)[i]? = some cI
      ∧ cI.fakes[fi]? = some (tr { f with text := String.singleton (randomGlyph (rng i fi)) }) := by
  refine ⟨{ c with fakes := randomizeFakes rng tr false i 0 c.fakes }, ?_, ?_⟩
  · rw [sweepImmediate_getElem?, hc]
    rfl
  · have hgen : ∀ (fs : List Span) (j m : Nat),
        (randomizeFakes rng tr false i j fs)[m]? =
          (fs[m]?).map (fun f0 => randFake rng tr false i (j + m) f0) := by
      intro fs
      induction fs with
      | nil => intro j m; simp [randomizeFakes]
      | cons f0 rest ih =>
        intro j m
        cases m with
        | zero => simp [randomizeFakes]
        | succ m =>
          have h := ih (j + 1) m
          have hjk : j + 1 + m = j + (m + 1) := by omega
          rw [hjk] at h
          simpa [randomizeFakes] using h
    have := hgen c.fakes 0 fi
    rw [hf] at this
    simp only [Option.map_some'] at this
    rw [show (randomizeFakes rng tr false i 0 c.fakes : List Span)
        = ({ c with fakes := randomizeFakes rng tr false i 0 c.fakes } : Cell).fakes from rfl]
      at this
    rw [this]
    simp [randFake]

/-- C3 amended witness: concrete cell, fake 0 is the transformed randomized
span at call time. -/
theorem scrambleSweep_fake_transform_immediate_witness :
    ∃ cI, (sweepImmediate (fun _ _ => 0) (fun s => { s with color := "black" }) false
        (scramblePrepare ["A"] 1 (fun _ _ => 0)))[0]? = some cI
      ∧ cI.fakes[0]? = some ((fun s => { s with color := "black" })
          { mkFakeSpan (randomGlyph 0) with text := String.singleton (randomGlyph 0) }) :=
  scrambleSweep_fake_transform_immediate (scramblePrepare ["A"] 1 (fun _ _ => 0))
    (fun _ _ => 0) (fun s => { s with color := "black" }) 0 (mkCell 1 (fun _ _ => 0) 0 "A")
    (by decide) 0 (mkFakeSpan (randomGlyph 0)) (by decide)

/-- The timers `scrambleReveal` registers for the cell at index `i` with `n`
fakes (src/main.ts lines 114-138): show/hide fake `fi` at
`baseDelay + (fi+1)*fakeStagger` (plus `fakeDuration`), and the real span's
fade-in to `opacity:1` starting at `baseDelay` — modelled as `restoreReal`,
which with the identity transform only sets the opacity. -/
def revealCellEvents (o : ScrambleOptions) (i n : Nat) : List SweepEvent :=
  let b := sdOf o + (i : ℚ) * csOf o
  ((List.range n).flatMap (fun fi =>
      [⟨i, b + ((fi : ℚ) + 1) * fsOf o, SweepAction.showFake fi⟩,
       ⟨i, b + ((fi : ℚ) + 1) * fsOf o + fdRevealOf o, SweepAction.hideFake fi⟩]))
    ++ [⟨i, b, SweepAction.restoreReal⟩]

/-- All timers `scrambleReveal` registers, cell by cell in document order. -/
def revealSchedule (o : ScrambleOptions) : Nat → List Cell → List SweepEvent
  | _, [] => []
  | i, c :: rest => revealCellEvents o i c.fakes.length ++ revealSchedule o (i + 1) rest

/-- The synchronous part of `scrambleReveal`: every real span is hidden
immediately (`opacity:0`, lines 110-112); text is never touched. -/
def revealImmediate (cells : List Cell) : List Cell :=
  cells.map (fun c => { c with real := { c.real with opacity := "0" } })

/-- A whole `scrambleReveal` run to completion: the synchronous hide, then
every scheduled timer in firing order.  Reveal has no transform and no
cancel function, hence the identity transform and no cancel time. -/
def scrambleRevealRun (cells : List Cell) (o : ScrambleOptions) : List Cell :=
  runEvents id none (List.insertionSort timeLE (revealSchedule o 0 cells))
    (revealImmediate cells)

/-- Whether an event is a hidden-phase `hideReal` timer — the only kind of
event that can change a real span's text. -/
def isHideRealEv (e : SweepEvent) : Bool :=
  match e.action with
  | .hideReal _ => true
  | _ => false

theorem revealCellEvents_no_hide (o : ScrambleOptions) (i n : Nat) :
    ∀ e ∈ revealCellEvents o i n, isHideRealEv e = false := by
  intro e he
  simp [revealCellEvents] at he
  rcases he with ⟨fi, hfi, rfl | rfl⟩ | rfl <;> rfl

theorem revealSchedule_no_hide (o : ScrambleOptions) :
    ∀ (cells : List Cell) (j : Nat), ∀ e ∈ revealSchedule o j cells,
      isHideRealEv e = false := by
  intro cells
  induction cells with
  | nil => intro j e he; simp [revealSchedule] at he
  | cons c rest ih =>
    intro j e he
    rw [revealSchedule] at he
    rcases List.mem_append.mp he with h | h
    · exact revealCellEvents_no_hide o j _ e h
    · exact ih (j + 1) e h

theorem realFold_text_no_hide (tr : Span → Span) (htext : ∀ s, (tr s).text = s.text)
    (ct : Option ℚ) :
    ∀ (evs : List SweepEvent), (∀ e ∈ evs, isHideRealEv e = false) →
      ∀ r : Span, (realFold tr ct r evs).text = r.text := by
  intro evs
  induction evs with
  | nil => intro _ r; rfl
  | cons e evs ih =>
    intro h r
    have he := h e (List.mem_cons_self e evs)
    have hrest : ∀ e' ∈ evs, isHideRealEv e' = false :=
      fun e' h' => h e' (List.mem_cons_of_mem e h')
    rw [realFold_cons, ih hrest]
    cases ha : e.action with
    | hideReal nc =>
      rw [isHideRealEv, ha] at he
      simp at he
    | showFake fi => rfl
    | hideFake fi => rfl
    | restoreReal =>
      simp only [realStep]
      cases hb : cancelledAt ct e.time with
      | true => rfl
      | false => exact htext _

/-- C5: `scrambleGetChars` after a completed `scrambleReveal` returns the
prepared (pre-split, whitespace-free) characters unchanged, character for
character in document order: no reveal timer ever touches a real span's
text. -/
theorem scrambleGetChars_after_reveal (chars : List String) (k : Nat)
    (rng : Nat → Nat → Nat) (o : ScrambleOptions) :
    scrambleGetChars (scrambleRevealRun (scramblePrepare chars k rng) o) = chars := by
  apply List.ext_getElem?
  intro i
  rw [scrambleGetChars, List.getElem?_map, scrambleRevealRun, runEvents_getElem?,
    revealImmediate, List.getElem?_map, scramblePrepare_getElem?]
  cases hs : chars[i]? with
  | none => rfl
  | some s =>
    simp only [Option.map_some']
    rw [runCell_real]
    have hno : ∀ e ∈ (List.insertionSort timeLE
        (revealSchedule o 0 (scramblePrepare chars k rng))).filter
          (fun e => e.cellIdx == i), isHideRealEv e = false := by
      intro e he
      have h1 := List.mem_of_mem_filter he
      have h2 := (List.mem_insertionSort timeLE).mp h1
      exact revealSchedule_no_hide o (scramblePrepare chars k rng) 0 e h2
    rw [realFold_text_no_hide id (fun _ => rfl) none _ hno]
    rfl

/-- A route descriptor (src/main.ts lines 253-257). -/
structure Route where
  path : String
  label : String
  html : String
deriving DecidableEq, Repr

/-- `Router.resolve(path)`: exact string match over the route table, first
match wins (src/main.ts lines 289-291). -/
def Router.resolve (routes : List Route) (path : String) : Option Route :=
  routes.find? (fun r => r.path == path)

/-- The App's route table (src/main.ts lines 302-306); the page markups are
opaque imported file contents. -/
def appRoutes (homeHtml aboutHtml workHtml : String) : List Route :=
  [{ path := "/", label := "HOME", html := homeHtml },
   { path := "/about", label := "ABOUT", html := aboutHtml },
   { path := "/work", label := "WORK", html := workHtml }]

/-- The route `App.navigate(path)` renders:
`this.router.resolve(path) ?? this.routes[0]` (src/main.ts line 442). -/
def appNavigateRoute (homeHtml aboutHtml workHtml : String) (path : String) : Route :=
  (Router.resolve (appRoutes homeHtml aboutHtml workHtml) path).getD
    (((appRoutes homeHtml aboutHtml workHtml).head?).getD
      { path := "", label := "", html := "" })

/-- C6: `Router.resolve` returns exactly the configured route whose `path`
equals the argument (the App's three paths are distinct, so the match is
unique), `none` when no route matches, and `App.navigate` substitutes the
first declared route (home) whenever `resolve` returns `undefined`. -/
theorem router_resolve_exact_and_fallback (h a w p : String) :
    (∀ r : Route, Router.resolve (appRoutes h a w) p = some r ↔
        r ∈ appRoutes h a w ∧ r.path = p)
    ∧ (Router.resolve (appRoutes h a w) p = none ↔ ∀ r ∈ appRoutes h a w, r.path ≠ p)
    ∧ (Router.resolve (appRoutes h a w) p = none →
        appNavigateRoute h a w p = { path := "/", label := "HOME", html := h }) := by
  refine ⟨?_, ?_, ?_⟩
  · intro r
    constructor
    · intro hr
      have h1 := List.find?_some hr
      have h2 := List.mem_of_find?_eq_some hr
      exact ⟨h2, by simpa using h1⟩
    · rintro ⟨hmem, hpath⟩
      subst hpath
      simp only [appRoutes, List.mem_cons, List.mem_singleton, List.not_mem_nil,
        or_false] at hmem
      rcases hmem with rfl | rfl | rfl <;> rfl
  · rw [Router.resolve, List.find?_eq_none]
    constructor
    · intro hall r hr
      simpa using hall r hr
    · intro hall r hr
      simpa using hall r hr
  · intro hnone
    rw [appNavigateRoute, hnone]
    rfl

/-- C6 witness: "/nope" resolves to nothing and App falls back to home. -/
theorem router_resolve_exact_and_fallback_witness :
    Router.resolve (appRoutes "h" "a" "w") "/nope" = none
    ∧ appNavigateRoute "h" "a" "w" "/nope" = { path := "/", label := "HOME", html := "h" } :=
  ⟨rfl, (router_resolve_exact_and_fallback "h" "a" "w" "/nope").2.2 rfl⟩

/-- Router-visible browser state: `location.pathname`, the history stack,
and the log of `onNavigate` callback invocations. -/
structure RouterState where
  pathname : String
  history : List String
  navLog : List String
deriving DecidableEq, Repr

/-- `Router.push(path)` (src/main.ts lines 283-287): early return when
`path` equals the current pathname; otherwise `history.pushState` (new
entry, new pathname) followed by the `onNavigate` callback. -/
def Router.push (st : RouterState) (path : String) : RouterState :=
  if path = st.pathname then st
  else { pathname := path, history := st.history ++ [path], navLog := st.navLog ++ [path] }

/-- C7: pushing the current path is a complete no-op — no history entry, no
pathname change, no `onNavigate` invocation. -/
theorem router_push_same_path_noop (st : RouterState) (path : String)
    (h : path = st.pathname) : Router.push st path = st := by
  rw [Router.push, if_pos h]

/-- C7 witness: pushing "/" while already at "/" changes nothing. -/
theorem router_push_same_path_noop_witness :
    Router.push { pathname := "/", history := ["/"], navLog := [] } "/" =
      { pathname := "/", history := ["/"], navLog := [] } :=
  router_push_same_path_noop { pathname := "/", history := ["/"], navLog := [] } "/" rfl

/-- The `#content` container's state during navigation: its markup and the
opacity transition target. -/
structure NavState where
  content : String
  contentOpacity : String
deriving DecidableEq, Repr

/-- One step of `App.navigate`'s awaited sequence (src/main.ts lines
441-452): the old page's fade-out start and its completed `transitionend`
(when `hide()` resolves), the synchronous `container.innerHTML = html` of
`Page.create`, and the new page's fade-in start and completion. -/
inductive NavStep where
  | hideStart
  | hideEnd
  | create (html : String)
  | showStart
  | showEnd
deriving DecidableEq, Repr

/-- Effect of one navigation step on the container. -/
def navStep (st : NavState) : NavStep → NavState
  | .hideStart => { st with contentOpacity := "0" }
  | .hideEnd => st
  | .create h => { st with content := h }
  | .showStart => { st with contentOpacity := "1" }
  | .showEnd => st

/-- The ordered sequence of one `App.navigate` call: navigation is
serialized inside the async function — when a current page exists, its hide
is awaited to completion before `Page.create` injects the next markup and
`show` runs. -/
def navigateSteps (currentPage : Option String) (r : Route) : List NavStep :=
  (match currentPage with
   | some _ => [NavStep.hideStart, NavStep.hideEnd]
   | none => []) ++ [NavStep.create r.html, NavStep.showStart, NavStep.showEnd]

/-- Run a prefix of the navigation sequence on the container. -/
def runNav (st : NavState) (steps : List NavStep) : NavState :=
  steps.foldl navStep st

/-- C8: with a current page present, `App.navigate`'s sequence completes the
hide (`hideEnd`) strictly before the new markup is injected (`create`) and
shown; and after any prefix of the sequence the container holds either the
old markup or the new markup — `innerHTML` replacement is atomic, so the two
pages' markup are never simultaneously present. -/
theorem app_navigate_serialized (old : String) (r : Route) (st : NavState) :
    navigateSteps (some old) r =
      [NavStep.hideStart, NavStep.hideEnd, NavStep.create r.html, NavStep.showStart,
       NavStep.showEnd]
    ∧ ∀ k : Nat, (runNav st ((navigateSteps (some old) r).take k)).content = st.content
        ∨ (runNav st ((navigateSteps (some old) r).take k)).content = r.html := by
  refine ⟨rfl, ?_⟩
  intro k
  rcases k with _ | _ | _ | _ | _ | k
  · left; rfl
  · left; rfl
  · left; rfl
  · right; rfl
  · right; rfl
  · right
    simp [navigateSteps, runNav, navStep, List.take_succ_cons, List.take_nil]

end PersonalSite
